import Mathlib

/-!
Verification development for the gossip-p2p peer-discovery and gossip engine.

The Rust source is shallowly embedded:

* `ParticipantsStorage` models `src/participant/storage.rs`: the `HashMap`
  is modelled as an association list whose insert replaces any previous
  binding of the same key, which matches `HashMap::insert` semantics.
  The storage is generic over the endpoint type, exactly as the source is
  generic over `T: ParticipantEndpoint`; the trait method `addr` is passed
  as an explicit function `eaddr : E → A`.
* `Message`, `NetEvent`, `Participant.network_messages` and `runEvent`
  model `src/participant/message.rs` and `src/participant/model.rs`.
  Side effects are made explicit: outbound sends, log lines and dial
  attempts become `Output` values; `std::process::exit(1)` becomes
  `StepResult.exit 1`; a Rust `unwrap()` panic becomes `StepResult.panic`.
* Network nondeterminism is modelled by oracles: `dialOk : A → Bool`
  gives the outcome of `network().connect` for a target address, and
  `mkEp : A → E` gives the endpoint the transport returns for a
  successful dial (faithful to the framed-TCP transport, where the
  endpoint of a dialed connection reports the dialed address, which is
  expressed by the hypothesis `eaddr (mkEp a) = a` where needed).
-/

/-- Models `ParticipantInfo` of `storage.rs`: a record is either a
participant added from a successful outbound dial (`KnownParticipant`,
whose public address is the endpoint's address) or one added from a
received `PublicAddress` message (`UnknownParticipant`, carrying the
announced public address). -/
inductive ParticipantInfo (A : Type) where
  | KnownParticipant : ParticipantInfo A
  | UnknownParticipant (publicAddr : A) : ParticipantInfo A
deriving DecidableEq, Repr

/-- Models `ParticipantsStorage` of `storage.rs`: a `HashMap` from
endpoints to `ParticipantInfo`, plus the node's own public address. -/
structure ParticipantsStorage (E A : Type) where
  map : List (E × ParticipantInfo A)
  self_pub_addr : A
deriving DecidableEq, Repr

/-- Models `ParticipantAddress` of `storage.rs`. -/
structure ParticipantAddress (E A : Type) where
  public : A
  endpoint : E
deriving DecidableEq, Repr

/-- Resolved public address of one stored record: the endpoint's own
address for `KnownParticipant`, the announced address for
`UnknownParticipant`.  This is the match repeated throughout
`storage.rs` (`is_known_participant`, `get_participants_list`,
`receivers`, `get_pub_addr`). -/
def infoAddr {E A : Type} (eaddr : E → A) (r : E × ParticipantInfo A) : A :=
  match r.2 with
  | ParticipantInfo.KnownParticipant => eaddr r.1
  | ParticipantInfo.UnknownParticipant p => p

namespace ParticipantsStorage

variable {E A : Type} [DecidableEq E] [DecidableEq A]

/-- Models `ParticipantsStorage::new`. -/
def new (self_pub_addr : A) : ParticipantsStorage E A :=
  { map := [], self_pub_addr := self_pub_addr }

/-- Association-list insert with `HashMap::insert` semantics: the new
binding replaces any previous binding of the same key. -/
def insertRec (s : ParticipantsStorage E A) (e : E) (i : ParticipantInfo A) :
    ParticipantsStorage E A :=
  { s with map := (e, i) :: s.map.filter (fun r => decide (r.1 ≠ e)) }

/-- Models `ParticipantsStorage::is_known_participant`. -/
def is_known_participant (s : ParticipantsStorage E A) (eaddr : E → A) (addr : A) : Bool :=
  s.map.any (fun r =>
    match r.2 with
    | ParticipantInfo.KnownParticipant => decide (eaddr r.1 = addr)
    | ParticipantInfo.UnknownParticipant public_addr => decide (public_addr = addr))

/-- Models `ParticipantsStorage::add_known_participant`. -/
def add_known_participant (s : ParticipantsStorage E A) (e : E) : ParticipantsStorage E A :=
  s.insertRec e ParticipantInfo.KnownParticipant

/-- Models `ParticipantsStorage::drop` (`HashMap::remove`). -/
def drop (s : ParticipantsStorage E A) (e : E) : ParticipantsStorage E A :=
  { s with map := s.map.filter (fun r => decide (r.1 ≠ e)) }

/-- Models `ParticipantsStorage::add_unknown_participant`. -/
def add_unknown_participant (s : ParticipantsStorage E A) (e : E) (pub_addr : A) :
    ParticipantsStorage E A :=
  s.insertRec e (ParticipantInfo.UnknownParticipant pub_addr)

/-- Models `ParticipantsStorage::get_participants_list`: the node's own
public address followed by every record's resolved address. -/
def get_participants_list (s : ParticipantsStorage E A) (eaddr : E → A) : List A :=
  s.self_pub_addr :: s.map.map (infoAddr eaddr)

/-- Models `ParticipantsStorage::receivers`. -/
def receivers (s : ParticipantsStorage E A) (eaddr : E → A) : List (ParticipantAddress E A) :=
  s.map.map (fun r => { public := infoAddr eaddr r, endpoint := r.1 })

/-- Models `ParticipantsStorage::get_pub_addr` (`HashMap::get` followed
by the resolution match). -/
def get_pub_addr (s : ParticipantsStorage E A) (eaddr : E → A) (e : E) : Option A :=
  (s.map.find? (fun r => decide (r.1 = e))).map (fun r =>
    match r.2 with
    | ParticipantInfo.KnownParticipant => eaddr e
    | ParticipantInfo.UnknownParticipant a => a)

end ParticipantsStorage

/-- Proposition form of `is_known_participant`: some stored record
resolves to the address. -/
def knownP {E A : Type} (eaddr : E → A) (s : ParticipantsStorage E A) (x : A) : Prop :=
  ∃ r ∈ s.map, infoAddr eaddr r = x

/-- Models the `Message` enum of `message.rs`, generic over the address
type (as the engine is generic over the endpoint type) and over the
payload type of `Text` (instantiated with `String` for the engine and
with UTF-8 byte sequences for the wire codec). -/
inductive Message (A T : Type) where
  | PublicAddress (addr : A) : Message A T
  | PushParticipantsList : Message A T
  | PullParticipantsList (addrs : List A) : Message A T
  | Text (text : T) : Message A T
deriving DecidableEq, Repr

/-- Models `message_io::network::NetEvent`, with the inbound frame
already decoded into a `Message` (the engine decodes it with
`bincode::deserialize` at the top of the `NetEvent::Message` arm). -/
inductive NetEvent (E A T : Type) where
  | Accepted (e : E) : NetEvent E A T
  | Connected (e : E) (established : Bool) : NetEvent E A T
  | Message (sender : E) (m : Message A T) : NetEvent E A T
  | Disconnected (e : E) : NetEvent E A T
deriving DecidableEq, Repr

/-- Observable side effects of one event-handler step. -/
inductive Output (E A : Type) where
  | send (dest : E) (m : Message A String) : Output E A
  | logReceived (text : String) (src : A) : Output E A
  | dialAttempt (target : A) : Output E A
deriving DecidableEq, Repr

/-- Models the state of `Participant` of `model.rs` that the event
handlers read and write: the node's public address and the participants
storage (`Participant::new` creates the storage with
`ParticipantsStorage::new(public_addr)`). -/
structure Participant (E A : Type) where
  public_addr : A
  participants : ParticipantsStorage E A
deriving DecidableEq, Repr

/-- Result of one event-handler step: the engine either continues with a
new state and a list of side effects, terminates the process
(`std::process::exit`), or panics (a Rust `unwrap()` on `None`). -/
inductive StepResult (E A : Type) where
  | next (p : Participant E A) (out : List (Output E A)) : StepResult E A
  | exit (code : Nat) : StepResult E A
  | panic : StepResult E A
deriving DecidableEq, Repr

/-- Models the loop body of `Participant::pull_participants_list` of
`model.rs`: for each received address, if it differs from the node's own
public address and from the sender's remote address and no stored record
already resolves to it, a dial is attempted; a successful dial
(`dialOk a = true`) inserts the fresh endpoint `mkEp a` as a known
participant, a failed dial only logs.  The second component collects the
dial attempts in order. -/
def pullLoop {E A : Type} [DecidableEq E] [DecidableEq A]
    (eaddr : E → A) (dialOk : A → Bool) (mkEp : A → E)
    (selfAddr senderAddr : A) :
    List A → ParticipantsStorage E A → ParticipantsStorage E A × List A
  | [], st => (st, [])
  | a :: rest, st =>
    if a ≠ selfAddr ∧ a ≠ senderAddr ∧ st.is_known_participant eaddr a = false then
      let st' := if dialOk a then st.add_known_participant (mkEp a) else st
      let res := pullLoop eaddr dialOk mkEp selfAddr senderAddr rest st'
      (res.1, a :: res.2)
    else
      pullLoop eaddr dialOk mkEp selfAddr senderAddr rest st

/-- Models `Participant::pull_participants_list`: the storage after the
reconciliation loop and the list of attempted dial targets. -/
def Participant.pull_participants_list {E A : Type} [DecidableEq E] [DecidableEq A]
    (eaddr : E → A) (dialOk : A → Bool) (mkEp : A → E)
    (p : Participant E A) (message_sender : E) (addrs : List A) :
    ParticipantsStorage E A × List A :=
  pullLoop eaddr dialOk mkEp p.public_addr (eaddr message_sender) addrs p.participants

/-- Models `Participant::network_messages` of `model.rs`.  The `Text`
arm mirrors the source's `get_pub_addr(..).unwrap()`: a `none` lookup is
a panic. -/
def Participant.network_messages {E A : Type} [DecidableEq E] [DecidableEq A]
    (eaddr : E → A) (dialOk : A → Bool) (mkEp : A → E)
    (p : Participant E A) (message_sender : E) (message : Message A String) :
    StepResult E A :=
  match message with
  | Message.PublicAddress pub_addr =>
      StepResult.next
        { p with participants := p.participants.add_unknown_participant message_sender pub_addr }
        []
  | Message.PushParticipantsList =>
      StepResult.next p
        [Output.send message_sender
          (Message.PullParticipantsList (p.participants.get_participants_list eaddr))]
  | Message.PullParticipantsList addrs =>
      let res := p.pull_participants_list eaddr dialOk mkEp message_sender addrs
      StepResult.next { p with participants := res.1 } (res.2.map Output.dialAttempt)
  | Message.Text text =>
      match p.participants.get_pub_addr eaddr message_sender with
      | some pub_addr => StepResult.next p [Output.logReceived text pub_addr]
      | none => StepResult.panic

/-- Models `Participant::connected` of `model.rs`: register the endpoint
as a known participant, then send `PublicAddress(self.public_addr)`
followed by `PushParticipantsList`. -/
def Participant.connected {E A : Type} [DecidableEq E] [DecidableEq A]
    (p : Participant E A) (endpoint : E) : StepResult E A :=
  StepResult.next
    { p with participants := p.participants.add_known_participant endpoint }
    [Output.send endpoint (Message.PublicAddress p.public_addr),
     Output.send endpoint Message.PushParticipantsList]

/-- Models the event dispatcher of `Participant::run` of `model.rs`:
`Accepted` does nothing, `Connected` with `established = true` runs the
handshake, `Connected` with `established = false` calls
`std::process::exit(1)`, `Message` dispatches to `network_messages`, and
`Disconnected` removes the record. -/
def runEvent {E A : Type} [DecidableEq E] [DecidableEq A]
    (eaddr : E → A) (dialOk : A → Bool) (mkEp : A → E)
    (p : Participant E A) : NetEvent E A String → StepResult E A
  | NetEvent.Accepted _ => StepResult.next p []
  | NetEvent.Connected endpoint established =>
      if established then p.connected endpoint else StepResult.exit 1
  | NetEvent.Message message_sender m =>
      p.network_messages eaddr dialOk mkEp message_sender m
  | NetEvent.Disconnected endpoint =>
      StepResult.next { p with participants := p.participants.drop endpoint } []

/-- Models one tick of the loop body of
`Participant::sending_random_message` of `model.rs`.  The thread-local
random generator is modelled as a stream `rng : Nat → Nat`; one tick
consults it exactly once (`gen_range(0..1000)`, modelled as
`rng 0 % 1000`) when the receivers snapshot is nonempty.  The result is
the list of sends of the tick together with the number of random draws
made. -/
def sending_random_message_tick {E A : Type} [DecidableEq E] [DecidableEq A]
    (eaddr : E → A) (rng : Nat → Nat) (s : ParticipantsStorage E A) :
    List (E × Message A String) × Nat :=
  let receivers := s.receivers eaddr
  if receivers.isEmpty then
    ([], 0)
  else
    let msg_text := "random message " ++ toString (rng 0 % 1000)
    let msg : Message A String := Message.Text msg_text
    (receivers.map (fun r => (r.endpoint, msg)), 1)

/-- Modelled from the spec: the serialization codec is an external
collaborator (`bincode`, not under `src/`); §4.2 describes it as a
compact, self-describing binary encoding of the tagged union, delivered
in one frame per message.  Bytes are `Fin 256`. -/
abbrev Byte := Fin 256

/-- Little-endian encoding of a natural number into a fixed number of
bytes (the first argument), as `bincode` encodes fixed-width unsigned
integers. -/
def natLE : Nat → Nat → List Byte
  | 0, _ => []
  | k + 1, n => (⟨n % 256, Nat.mod_lt _ (by omega)⟩ : Byte) :: natLE k (n / 256)

/-- Little-endian decoding of a byte sequence back to a natural
number. -/
def leNat : List Byte → Nat
  | [] => 0
  | b :: bs => b.val + 256 * leNat bs

/-- Reads an exact number of bytes from the head of the input, returning
the bytes read and the remaining input. -/
def takeExact (k : Nat) (l : List Byte) : Option (List Byte × List Byte) :=
  if k ≤ l.length then some (l.take k, l.drop k) else none

/-- Modelled from the spec: an IP address as serialized by the codec.  A
`v6` payload is well formed when it has exactly 16 bytes (`wfAddr`). -/
inductive IpAddr where
  | v4 (o0 o1 o2 o3 : Byte) : IpAddr
  | v6 (bytes : List Byte) : IpAddr
deriving DecidableEq, Repr

/-- Modelled from the spec: a socket address (IP address and port) as
carried by `PublicAddress` and `PullParticipantsList` payloads. -/
structure SockAddr where
  ip : IpAddr
  port : Fin 65536
deriving DecidableEq, Repr

/-- Encodes an IP address: a 4-byte variant tag (0 for v4, 1 for v6)
followed by the address bytes. -/
def encodeIp : IpAddr → List Byte
  | IpAddr.v4 o0 o1 o2 o3 => natLE 4 0 ++ [o0, o1, o2, o3]
  | IpAddr.v6 bs => natLE 4 1 ++ bs

/-- Encodes a socket address: the IP address followed by the port as a
2-byte little-endian integer. -/
def encodeSockAddr (s : SockAddr) : List Byte :=
  encodeIp s.ip ++ natLE 2 s.port.val

/-- Decodes the trailing 2-byte port of a socket address, attaching it
to an already decoded IP address. -/
def decodePort (ip : IpAddr) (l : List Byte) : Option (SockAddr × List Byte) :=
  match takeExact 2 l with
  | none => none
  | some (pB, r) => some (⟨ip, ⟨leNat pB % 65536, Nat.mod_lt _ (by omega)⟩⟩, r)

/-- Decodes a socket address from the head of the input, returning the
remaining input. -/
def decodeSockAddr (l : List Byte) : Option (SockAddr × List Byte) :=
  match takeExact 4 l with
  | none => none
  | some (tagB, r1) =>
    if leNat tagB = 0 then
      match takeExact 4 r1 with
      | some ([a, b, c, d], r2) => decodePort (IpAddr.v4 a b c d) r2
      | _ => none
    else if leNat tagB = 1 then
      match takeExact 16 r1 with
      | none => none
      | some (bs, r2) => decodePort (IpAddr.v6 bs) r2
    else
      none

/-- Decodes a given number of consecutive socket addresses. -/
def decodeAddrs : Nat → List Byte → Option (List SockAddr × List Byte)
  | 0, l => some ([], l)
  | n + 1, l =>
    match decodeSockAddr l with
    | none => none
    | some (a, r) =>
      match decodeAddrs n r with
      | none => none
      | some (as, r') => some (a :: as, r')

/-- Encodes one `Message` value as one frame: a 4-byte variant tag, then
the payload; sequences carry an 8-byte little-endian length. The `Text`
payload is the UTF-8 byte sequence of the string. -/
def encodeMessage : Message SockAddr (List Byte) → List Byte
  | Message.PublicAddress a => natLE 4 0 ++ encodeSockAddr a
  | Message.PushParticipantsList => natLE 4 1
  | Message.PullParticipantsList addrs =>
      natLE 4 2 ++ natLE 8 addrs.length ++ (addrs.map encodeSockAddr).flatten
  | Message.Text t => natLE 4 3 ++ natLE 8 t.length ++ t

/-- Decodes one frame into a `Message`; decoding is strict, any trailing
bytes or malformed payload fail the decode. -/
def decodeMessage (l : List Byte) : Option (Message SockAddr (List Byte)) :=
  match takeExact 4 l with
  | none => none
  | some (tagB, r) =>
    if leNat tagB = 0 then
      match decodeSockAddr r with
      | some (a, []) => some (Message.PublicAddress a)
      | _ => none
    else if leNat tagB = 1 then
      match r with
      | [] => some Message.PushParticipantsList
      | _ => none
    else if leNat tagB = 2 then
      match takeExact 8 r with
      | none => none
      | some (cB, r1) =>
        match decodeAddrs (leNat cB) r1 with
        | some (as, []) => some (Message.PullParticipantsList as)
        | _ => none
    else if leNat tagB = 3 then
      match takeExact 8 r with
      | none => none
      | some (nB, r1) =>
        match takeExact (leNat nB) r1 with
        | some (t, []) => some (Message.Text t)
        | _ => none
    else
      none

/-- Well-formedness of a socket address value: a v6 payload has exactly
16 bytes. -/
def wfAddr (s : SockAddr) : Prop :=
  match s.ip with
  | IpAddr.v4 _ _ _ _ => True
  | IpAddr.v6 bs => bs.length = 16

/-- Well-formedness of a message value: addresses are well formed and
sequence lengths fit the 8-byte length prefix (as every Rust `Vec` or
`String` length does). -/
def wfMessage : Message SockAddr (List Byte) → Prop
  | Message.PublicAddress a => wfAddr a
  | Message.PushParticipantsList => True
  | Message.PullParticipantsList addrs =>
      addrs.length < 2 ^ 64 ∧ ∀ a ∈ addrs, wfAddr a
  | Message.Text t => t.length < 2 ^ 64

/-- Engine state together with the model-level ghost list of dial
targets whose outbound connection attempt has been issued (each
successful `network().connect` call); the transport's `Connected` events
can only report endpoints of such dials. -/
structure World (E A : Type) where
  node : Participant E A
  pending : List A
deriving DecidableEq, Repr

/-- Dial targets successfully issued while handling one event: the
attempted targets of a roster reconciliation whose `connect` call
returned `Ok`.  No other handler dials. -/
def eventNewDials {E A : Type} [DecidableEq E] [DecidableEq A]
    (eaddr : E → A) (dialOk : A → Bool) (mkEp : A → E)
    (p : Participant E A) : NetEvent E A String → List A
  | NetEvent.Message sender (Message.PullParticipantsList addrs) =>
      (p.pull_participants_list eaddr dialOk mkEp sender addrs).2.filter dialOk
  | _ => []

/-- States reachable by event-handler steps in honest runs.  Start
states mirror `Participant::run`: a fresh node (`ParticipantsStorage`
is empty), optionally with a successful bootstrap dial to an address
other than the node itself.  A step requires: `Connected` events report
endpoints of previously issued dials; no received `PublicAddress`
message carries the node's own public address; endpoints created for
fresh roster dials are not already keys of the table (the transport
returns fresh connections). -/
inductive Reach {E A : Type} [DecidableEq E] [DecidableEq A]
    (eaddr : E → A) (dialOk : A → Bool) (mkEp : A → E) : World E A → Prop where
  | init (selfAddr : A) :
      Reach eaddr dialOk mkEp
        { node := { public_addr := selfAddr, participants := ParticipantsStorage.new selfAddr },
          pending := [] }
  | initBoot (selfAddr baddr : A) (hb : baddr ≠ selfAddr) :
      Reach eaddr dialOk mkEp
        { node := { public_addr := selfAddr,
                    participants :=
                      (ParticipantsStorage.new selfAddr).add_known_participant (mkEp baddr) },
          pending := [baddr] }
  | step (w : World E A) (ev : NetEvent E A String)
      (p' : Participant E A) (out : List (Output E A))
      (hw : Reach eaddr dialOk mkEp w)
      (hconn : ∀ e est, ev = NetEvent.Connected e est → ∃ a ∈ w.pending, e = mkEp a)
      (hann : ∀ e, ev ≠ NetEvent.Message e (Message.PublicAddress w.node.public_addr))
      (hfresh : ∀ sender addrs,
        ev = NetEvent.Message sender (Message.PullParticipantsList addrs) →
        ∀ a ∈ addrs, ∀ r ∈ w.node.participants.map, r.1 ≠ mkEp a)
      (hrun : runEvent eaddr dialOk mkEp w.node ev = StepResult.next p' out) :
      Reach eaddr dialOk mkEp
        { node := p',
          pending := w.pending ++ eventNewDials eaddr dialOk mkEp w.node ev }

theorem mem_insertRec {E A : Type} [DecidableEq E] [DecidableEq A]
    (s : ParticipantsStorage E A) (e : E) (i : ParticipantInfo A) (r : E × ParticipantInfo A) :
    r ∈ (s.insertRec e i).map ↔ r = (e, i) ∨ (r ∈ s.map ∧ r.1 ≠ e) := by
  simp [ParticipantsStorage.insertRec, List.mem_filter]

theorem is_known_participant_iff {E A : Type} [DecidableEq E] [DecidableEq A]
    (s : ParticipantsStorage E A) (eaddr : E → A) (x : A) :
    s.is_known_participant eaddr x = true ↔ knownP eaddr s x := by
  simp only [ParticipantsStorage.is_known_participant, List.any_eq_true, knownP]
  constructor
  · rintro ⟨⟨e, i⟩, hm, hp⟩
    refine ⟨(e, i), hm, ?_⟩
    cases i with
    | KnownParticipant => simpa [infoAddr] using hp
    | UnknownParticipant p => simpa [infoAddr] using hp
  · rintro ⟨⟨e, i⟩, hm, hp⟩
    refine ⟨(e, i), hm, ?_⟩
    cases i with
    | KnownParticipant => simpa [infoAddr] using hp
    | UnknownParticipant p => simpa [infoAddr] using hp

theorem is_known_participant_false_iff {E A : Type} [DecidableEq E] [DecidableEq A]
    (s : ParticipantsStorage E A) (eaddr : E → A) (x : A) :
    s.is_known_participant eaddr x = false ↔ ¬ knownP eaddr s x := by
  rw [← is_known_participant_iff s eaddr x]
  cases s.is_known_participant eaddr x <;> simp

theorem knownP_insertRec {E A : Type} [DecidableEq E] [DecidableEq A]
    (eaddr : E → A) (s : ParticipantsStorage E A) (e : E) (i : ParticipantInfo A) (x : A)
    (hres : ∀ r ∈ s.map, r.1 = e → infoAddr eaddr r = infoAddr eaddr (e, i)) :
    knownP eaddr (s.insertRec e i) x ↔ (knownP eaddr s x ∨ infoAddr eaddr (e, i) = x) := by
  unfold knownP
  constructor
  · rintro ⟨r, hr, hx⟩
    rcases (mem_insertRec s e i r).1 hr with h | ⟨hm, _⟩
    · exact Or.inr (h ▸ hx)
    · exact Or.inl ⟨r, hm, hx⟩
  · rintro (⟨r, hm, hx⟩ | hx)
    · by_cases hk : r.1 = e
      · exact ⟨(e, i), (mem_insertRec s e i _).2 (Or.inl rfl), by rw [← hres r hm hk]; exact hx⟩
      · exact ⟨r, (mem_insertRec s e i r).2 (Or.inr ⟨hm, hk⟩), hx⟩
    · exact ⟨(e, i), (mem_insertRec s e i _).2 (Or.inl rfl), hx⟩

theorem find?_filter_ne {E : Type} [DecidableEq E] {I : Type}
    (l : List (E × I)) (e e' : E) (hne : e' ≠ e) :
    (l.filter (fun r => decide (r.1 ≠ e))).find? (fun r => decide (r.1 = e')) =
      l.find? (fun r => decide (r.1 = e')) := by
  induction l with
  | nil => rfl
  | cons x l ih =>
    rw [List.filter_cons]
    by_cases hx : x.1 = e
    · have hpx : decide (x.1 ≠ e) = false := by simp [hx]
      rw [hpx]
      simp only [Bool.false_eq_true, if_false]
      rw [ih, List.find?_cons_of_neg]
      simp only [decide_eq_true_eq]
      intro hc
      exact hne (hc ▸ hx)
    · have hpx : decide (x.1 ≠ e) = true := by simp [hx]
      rw [hpx]
      simp only [if_true]
      by_cases hf : x.1 = e'
      · rw [List.find?_cons_of_pos _ (by simp [hf]), List.find?_cons_of_pos _ (by simp [hf])]
      · rw [List.find?_cons_of_neg _ (by simp [hf]), List.find?_cons_of_neg _ (by simp [hf]), ih]

/-- C3 counterexample: on a concrete fresh node, the `accepted` handler
inserts nothing — afterwards the table still has no record for the
accepted handle (and no message was sent), contrary to the claim that a
record for the handle exists after the handler. -/
theorem accepted_inserts_no_record :
    runEvent (id : Nat → Nat) (fun _ => true) id
        { public_addr := 9, participants := ParticipantsStorage.new 9 }
        (NetEvent.Accepted 3)
      = StepResult.next { public_addr := 9, participants := ParticipantsStorage.new 9 } []
    ∧ (ParticipantsStorage.new 9 : ParticipantsStorage Nat Nat).get_pub_addr id 3 = none :=
  ⟨rfl, rfl⟩

/-- C3 (amended): for every engine state and every accepted handle, the
`accepted(h)` handler is a no-op — it leaves the state unchanged and
sends no message (the record for `h` is only created later, when the
peer's `PublicAddress` announce arrives on `h`). -/
theorem accepted_noop {E A : Type} [DecidableEq E] [DecidableEq A]
    (eaddr : E → A) (dialOk : A → Bool) (mkEp : A → E)
    (p : Participant E A) (e : E) :
    runEvent eaddr dialOk mkEp p (NetEvent.Accepted e) = StepResult.next p [] :=
  rfl

/-- C4: on a concrete node whose table has no record for the sending
handle, the inbound `Chat`/`Text` handler panics (the source unwraps the
`None` returned by `get_pub_addr`); it does not fall back to the
handle's remote address as the spec requires. -/
theorem chat_before_announce_panics :
    runEvent (id : Nat → Nat) (fun _ => true) id
        { public_addr := 9, participants := ParticipantsStorage.new 9 }
        (NetEvent.Message 3 (Message.Text "hi"))
      = StepResult.panic
    ∧ (ParticipantsStorage.new 9 : ParticipantsStorage Nat Nat).get_pub_addr id 3 = none :=
  ⟨rfl, rfl⟩

/-- C5 counterexample: on a concrete state, the handler for a failed
outbound dial (`connected(h, ok=false)`) terminates the process with
exit code 1 instead of continuing. -/
theorem connected_failed_exits :
    runEvent (id : Nat → Nat) (fun _ => true) id
        { public_addr := 9, participants := ParticipantsStorage.new 9 }
        (NetEvent.Connected 3 false)
      = StepResult.exit 1 :=
  rfl

/-- C5 (amended): for every engine state and handle, the
`connected(h, ok=false)` handler logs and terminates the whole process
with exit status 1 (`std::process::exit(1)`); only a synchronous
bootstrap `connect` error is logged without termination. -/
theorem connected_failed_terminates {E A : Type} [DecidableEq E] [DecidableEq A]
    (eaddr : E → A) (dialOk : A → Bool) (mkEp : A → E)
    (p : Participant E A) (e : E) :
    runEvent eaddr dialOk mkEp p (NetEvent.Connected e false) = StepResult.exit 1 :=
  rfl

/-- C8 counterexample: resolving an absent handle is not a no-op — on a
concrete empty table, `add_unknown_participant` (the implementation of
`resolve`) inserts a fresh record, changing the table. -/
theorem resolve_absent_inserts :
    (ParticipantsStorage.new 9 : ParticipantsStorage Nat Nat).add_unknown_participant 3 5
      ≠ ParticipantsStorage.new 9 := by
  decide

/-- C8 (amended): `resolve(handle, public_addr)`, implemented by
`add_unknown_participant`, inserts unconditionally: afterwards the
handle's lookup yields the announced public address (a fresh record is
created when the handle was absent, the old info is replaced when it was
present), and lookups of every other handle are unchanged. -/
theorem add_unknown_participant_overwrites {E A : Type} [DecidableEq E] [DecidableEq A]
    (eaddr : E → A) (s : ParticipantsStorage E A) (e : E) (p : A) (e' : E) :
    (s.add_unknown_participant e p).get_pub_addr eaddr e' =
      if e' = e then some p else s.get_pub_addr eaddr e' := by
  by_cases h : e' = e
  · subst h
    simp [ParticipantsStorage.add_unknown_participant, ParticipantsStorage.insertRec,
      ParticipantsStorage.get_pub_addr, List.find?_cons]
  · simp only [ParticipantsStorage.add_unknown_participant, ParticipantsStorage.insertRec,
      ParticipantsStorage.get_pub_addr, if_neg h]
    rw [List.find?_cons_of_neg _ ?hne, find?_filter_ne _ _ _ h]
    case hne =>
      simp only [decide_eq_true_eq]
      intro hc
      exact h hc.symm

/-- C1: uniqueness by public address fails.  Concrete run: a node with
public address 9 already holds a record for a dialed peer whose endpoint
address is 5 (so the record resolves to public address 5); an Announce
`PublicAddress(5)` then arrives on a different inbound endpoint (7).
The handler inserts a second record resolving to 5, and the broadcast
set afterwards lists public address 5 twice. -/
theorem duplicate_public_addr_after_announce :
    runEvent (id : Nat → Nat) (fun _ => true) id
        { public_addr := 9,
          participants := { map := [(5, ParticipantInfo.KnownParticipant)], self_pub_addr := 9 } }
        (NetEvent.Message 7 (Message.PublicAddress 5))
      = StepResult.next
          { public_addr := 9,
            participants :=
              { map := [(7, ParticipantInfo.UnknownParticipant 5),
                        (5, ParticipantInfo.KnownParticipant)],
                self_pub_addr := 9 } }
          []
    ∧ (({ map := [(7, ParticipantInfo.UnknownParticipant 5),
                  (5, ParticipantInfo.KnownParticipant)],
          self_pub_addr := 9 } : ParticipantsStorage Nat Nat).receivers id).map
        ParticipantAddress.public = [5, 5] := by
  constructor
  · rfl
  · rfl

/-- C2 counterexample: a `PublicAddress` message carrying the node's own
public address (9) is stored — afterwards the table has a record whose
resolved public address equals `self.public_addr`, so the node's own
address is in the broadcast set, contrary to the claim. -/
theorem announce_self_recorded :
    runEvent (id : Nat → Nat) (fun _ => true) id
        { public_addr := 9, participants := ParticipantsStorage.new 9 }
        (NetEvent.Message 3 (Message.PublicAddress 9))
      = StepResult.next
          { public_addr := 9,
            participants :=
              { map := [(3, ParticipantInfo.UnknownParticipant 9)], self_pub_addr := 9 } }
          []
    ∧ ({ map := [(3, ParticipantInfo.UnknownParticipant 9)], self_pub_addr := 9 }
        : ParticipantsStorage Nat Nat).is_known_participant id 9 = true := by
  constructor
  · rfl
  · rfl

/-- C10: on every broadcaster tick, if the receivers snapshot is empty
nothing is sent and the random generator is not consulted; otherwise the
generator is consulted exactly once, the drawn integer lies in
[0, 1000), and the identical `Text ("random message " ++ N)` message is
sent to every entry of the snapshot (one send per entry, in snapshot
order). -/
theorem sending_random_message_spec {E A : Type} [DecidableEq E] [DecidableEq A]
    (eaddr : E → A) (rng : Nat → Nat) (s : ParticipantsStorage E A) :
    ((s.receivers eaddr).isEmpty = true → sending_random_message_tick eaddr rng s = ([], 0))
    ∧ ((s.receivers eaddr).isEmpty = false →
        (sending_random_message_tick eaddr rng s).2 = 1
        ∧ ∃ n, n < 1000
            ∧ (sending_random_message_tick eaddr rng s).1 =
                (s.receivers eaddr).map
                  (fun r => (r.endpoint,
                    Message.Text ("random message " ++ toString n)))) := by
  constructor
  · intro h
    simp [sending_random_message_tick, h]
  · intro h
    refine ⟨?_, rng 0 % 1000, Nat.mod_lt _ (by omega), ?_⟩
    · simp [sending_random_message_tick, h]
    · simp [sending_random_message_tick, h]

/-- C10 witness: the theorem applied to a concrete empty snapshot (the
node with no peers) and to a concrete one-peer snapshot. -/
theorem sending_random_message_spec_witness :
    sending_random_message_tick (id : Nat → Nat) (fun _ => 5) (ParticipantsStorage.new 9) = ([], 0)
    ∧ ((sending_random_message_tick (id : Nat → Nat) (fun _ => 5)
          { map := [(3, ParticipantInfo.KnownParticipant)], self_pub_addr := 9 }).2 = 1
        ∧ ∃ n, n < 1000
            ∧ (sending_random_message_tick (id : Nat → Nat) (fun _ => 5)
                { map := [(3, ParticipantInfo.KnownParticipant)], self_pub_addr := 9 }).1 =
              (({ map := [(3, ParticipantInfo.KnownParticipant)], self_pub_addr := 9 }
                  : ParticipantsStorage Nat Nat).receivers id).map
                (fun r => (r.endpoint, Message.Text ("random message " ++ toString n)))) :=
  ⟨(sending_random_message_spec id (fun _ => 5) (ParticipantsStorage.new 9)).1 rfl,
   (sending_random_message_spec id (fun _ => 5)
      { map := [(3, ParticipantInfo.KnownParticipant)], self_pub_addr := 9 }).2 rfl⟩

theorem pullLoop_main {E A : Type} [DecidableEq E] [DecidableEq A]
    (eaddr : E → A) (dialOk : A → Bool) (mkEp : A → E) (selfAddr senderAddr : A)
    (H1 : ∀ a, eaddr (mkEp a) = a) :
    ∀ (addrs : List A) (st : ParticipantsStorage E A),
      (∀ a ∈ addrs, ∀ r ∈ st.map, r.1 = mkEp a → infoAddr eaddr r = a) →
      (∀ x, x ∈ (pullLoop eaddr dialOk mkEp selfAddr senderAddr addrs st).2 ↔
          (x ∈ addrs ∧ x ≠ selfAddr ∧ x ≠ senderAddr ∧ ¬ knownP eaddr st x))
      ∧ (∀ x, knownP eaddr (pullLoop eaddr dialOk mkEp selfAddr senderAddr addrs st).1 x ↔
          (knownP eaddr st x ∨ (dialOk x = true ∧
            x ∈ (pullLoop eaddr dialOk mkEp selfAddr senderAddr addrs st).2))) := by
  intro addrs
  induction addrs with
  | nil =>
    intro st _
    constructor
    · intro x
      simp [pullLoop]
    · intro x
      simp [pullLoop]
  | cons a rest ih =>
    intro st hKR
    have hKRrest : ∀ b ∈ rest, ∀ r ∈ st.map, r.1 = mkEp b → infoAddr eaddr r = b :=
      fun b hb => hKR b (List.mem_cons_of_mem a hb)
    by_cases hc : a ≠ selfAddr ∧ a ≠ senderAddr ∧ st.is_known_participant eaddr a = false
    · have hknow_a : ¬ knownP eaddr st a := (is_known_participant_false_iff st eaddr a).1 hc.2.2
      by_cases hd : dialOk a = true
      · have hres : ∀ r ∈ st.map, r.1 = mkEp a →
            infoAddr eaddr r = infoAddr eaddr (mkEp a, ParticipantInfo.KnownParticipant) := by
          intro r hr hk
          rw [hKR a (List.mem_cons_self a rest) r hr hk]
          simp [infoAddr, H1]
        have hins : ∀ x, knownP eaddr (st.add_known_participant (mkEp a)) x ↔
            (knownP eaddr st x ∨ x = a) := by
          intro x
          rw [ParticipantsStorage.add_known_participant, knownP_insertRec eaddr st _ _ x hres]
          simp [infoAddr, H1, eq_comm]
        have hKR' : ∀ b ∈ rest, ∀ r ∈ (st.add_known_participant (mkEp a)).map,
            r.1 = mkEp b → infoAddr eaddr r = b := by
          intro b hb r hr hk
          rcases (mem_insertRec st (mkEp a) ParticipantInfo.KnownParticipant r).1 hr with
            hEq | ⟨hm, _⟩
          · have h1 : (mkEp a : E) = mkEp b := by rw [hEq] at hk; exact hk
            have hab : a = b := by
              have h2 := congrArg eaddr h1
              rwa [H1, H1] at h2
            rw [hEq]
            simp [infoAddr, H1, hab]
          · exact hKR b (List.mem_cons_of_mem a hb) r hm hk
        obtain ⟨ihA, ihK⟩ := ih (st.add_known_participant (mkEp a)) hKR'
        constructor
        · intro x
          simp only [pullLoop, if_pos hc, if_pos hd]
          rw [List.mem_cons, List.mem_cons, ihA x, hins x]
          constructor
          · rintro (rfl | ⟨hx, h1, h2, h3⟩)
            · exact ⟨Or.inl rfl, hc.1, hc.2.1, hknow_a⟩
            · exact ⟨Or.inr hx, h1, h2, fun hk => h3 (Or.inl hk)⟩
          · rintro ⟨hx | hx, h1, h2, h3⟩
            · exact Or.inl hx
            · by_cases hxa : x = a
              · exact Or.inl hxa
              · exact Or.inr ⟨hx, h1, h2, fun hk => hk.elim h3 hxa⟩
        · intro x
          simp only [pullLoop, if_pos hc, if_pos hd]
          rw [ihK x, hins x, List.mem_cons]
          constructor
          · rintro ((hk | rfl) | ⟨hdx, hx⟩)
            · exact Or.inl hk
            · exact Or.inr ⟨hd, Or.inl rfl⟩
            · exact Or.inr ⟨hdx, Or.inr hx⟩
          · rintro (hk | ⟨hdx, rfl | hx⟩)
            · exact Or.inl (Or.inl hk)
            · exact Or.inl (Or.inr rfl)
            · exact Or.inr ⟨hdx, hx⟩
      · have hdf : dialOk a = false := by
          cases hdial : dialOk a
          · rfl
          · exact absurd hdial hd
        obtain ⟨ihA, ihK⟩ := ih st hKRrest
        constructor
        · intro x
          simp only [pullLoop, if_pos hc, if_neg hd]
          rw [List.mem_cons, List.mem_cons, ihA x]
          constructor
          · rintro (rfl | ⟨hx, h1, h2, h3⟩)
            · exact ⟨Or.inl rfl, hc.1, hc.2.1, hknow_a⟩
            · exact ⟨Or.inr hx, h1, h2, h3⟩
          · rintro ⟨hx | hx, h1, h2, h3⟩
            · exact Or.inl hx
            · exact Or.inr ⟨hx, h1, h2, h3⟩
        · intro x
          simp only [pullLoop, if_pos hc, if_neg hd]
          rw [ihK x, List.mem_cons]
          constructor
          · rintro (hk | ⟨hdx, hx⟩)
            · exact Or.inl hk
            · exact Or.inr ⟨hdx, Or.inr hx⟩
          · rintro (hk | ⟨hdx, rfl | hx⟩)
            · exact Or.inl hk
            · rw [hdf] at hdx
              exact Bool.noConfusion hdx
            · exact Or.inr ⟨hdx, hx⟩
    · have hblock : a = selfAddr ∨ a = senderAddr ∨ knownP eaddr st a := by
        by_cases h1 : a = selfAddr
        · exact Or.inl h1
        by_cases h2 : a = senderAddr
        · exact Or.inr (Or.inl h2)
        refine Or.inr (Or.inr ?_)
        rcases Bool.eq_false_or_eq_true (st.is_known_participant eaddr a) with ht | hf
        · exact (is_known_participant_iff st eaddr a).1 ht
        · exact absurd ⟨h1, h2, hf⟩ hc
      obtain ⟨ihA, ihK⟩ := ih st hKRrest
      constructor
      · intro x
        simp only [pullLoop, if_neg hc]
        rw [ihA x, List.mem_cons]
        constructor
        · rintro ⟨hx, h1, h2, h3⟩
          exact ⟨Or.inr hx, h1, h2, h3⟩
        · rintro ⟨hx | hx, h1, h2, h3⟩
          · subst hx
            rcases hblock with hb | hb | hb
            · exact absurd hb h1
            · exact absurd hb h2
            · exact absurd hb h3
          · exact ⟨hx, h1, h2, h3⟩
      · intro x
        simp only [pullLoop, if_neg hc]
        exact ihK x

/-- C6: roster reconciliation filter.  For every state, sender handle
and received address list, the handler attempts a dial to an address `a`
of the list if and only if `a` differs from the node's own public
address, differs from the sender's remote address, and no record of the
table (as it was when the handler started) already resolves to `a`.
The dial-outcome oracle `dialOk` is arbitrary, so the set of attempted
addresses is the same whatever dials fail: a failed dial to one address
never prevents the remaining addresses from being attempted.
Hypotheses: endpoints returned for dialed addresses carry the dialed
address (`eaddr (mkEp a) = a`), and the endpoints the transport creates
for the dials are fresh (not already keys of the table). -/
theorem pull_participants_list_dial_iff {E A : Type} [DecidableEq E] [DecidableEq A]
    (eaddr : E → A) (dialOk : A → Bool) (mkEp : A → E)
    (p : Participant E A) (message_sender : E) (addrs : List A)
    (H1 : ∀ a, eaddr (mkEp a) = a)
    (H2 : ∀ a ∈ addrs, ∀ r ∈ p.participants.map, r.1 ≠ mkEp a)
    (x : A) :
    x ∈ (Participant.pull_participants_list eaddr dialOk mkEp p message_sender addrs).2 ↔
      (x ∈ addrs ∧ x ≠ p.public_addr ∧ x ≠ eaddr message_sender ∧
        p.participants.is_known_participant eaddr x = false) := by
  have hKR : ∀ a ∈ addrs, ∀ r ∈ p.participants.map, r.1 = mkEp a → infoAddr eaddr r = a :=
    fun a ha r hr he => absurd he (H2 a ha r hr)
  have h := (pullLoop_main eaddr dialOk mkEp p.public_addr (eaddr message_sender) H1 addrs
    p.participants hKR).1 x
  rw [Participant.pull_participants_list, h, is_known_participant_false_iff]

/-- C6 witness: the dial-filter equivalence applied to a concrete node
(public address 100, empty table) receiving the roster
[50, 100, 7] from a sender whose remote address is 50: address 7 is
dialed. -/
theorem pull_participants_list_dial_iff_witness :
    7 ∈ (Participant.pull_participants_list (id : Nat → Nat) (fun _ => true) id
        { public_addr := 100, participants := ParticipantsStorage.new 100 }
        50 [50, 100, 7]).2 :=
  (pull_participants_list_dial_iff id (fun _ => true) id
      { public_addr := 100, participants := ParticipantsStorage.new 100 }
      50 [50, 100, 7] (fun _ => rfl)
      (by intro a _ r hr; simp [ParticipantsStorage.new] at hr) 7).2
    (by refine ⟨by decide, by decide, by decide, by decide⟩)

theorem pullLoop_blocked {E A : Type} [DecidableEq E] [DecidableEq A]
    (eaddr : E → A) (dialOk : A → Bool) (mkEp : A → E) (selfAddr senderAddr : A) :
    ∀ (addrs : List A) (st : ParticipantsStorage E A),
      (∀ a ∈ addrs, ¬ (a ≠ selfAddr ∧ a ≠ senderAddr ∧
          st.is_known_participant eaddr a = false)) →
      (pullLoop eaddr dialOk mkEp selfAddr senderAddr addrs st).2 = [] := by
  intro addrs
  induction addrs with
  | nil =>
    intro st _
    rfl
  | cons a rest ih =>
    intro st h
    simp only [pullLoop, if_neg (h a (List.mem_cons_self a rest))]
    exact ih st (fun b hb => h b (List.mem_cons_of_mem a hb))

/-- C7: idempotent reconciliation.  If a roster `addrs` is delivered
from a sender and every dial attempt of that first delivery succeeds
(`dialOk` is identically true), then delivering the same roster again
from the same sender, with no intervening events, attempts zero dials.
Hypotheses as in the dial-filter theorem: dialed endpoints carry the
dialed address and are fresh with respect to the starting table. -/
theorem pull_participants_list_idempotent {E A : Type} [DecidableEq E] [DecidableEq A]
    (eaddr : E → A) (dialOk : A → Bool) (mkEp : A → E)
    (p : Participant E A) (message_sender : E) (addrs : List A)
    (H1 : ∀ a, eaddr (mkEp a) = a)
    (H2 : ∀ a ∈ addrs, ∀ r ∈ p.participants.map, r.1 ≠ mkEp a)
    (Hok : ∀ a, dialOk a = true) :
    (Participant.pull_participants_list eaddr dialOk mkEp
        { p with participants :=
            (Participant.pull_participants_list eaddr dialOk mkEp p message_sender addrs).1 }
        message_sender addrs).2 = [] := by
  have hKR : ∀ a ∈ addrs, ∀ r ∈ p.participants.map, r.1 = mkEp a → infoAddr eaddr r = a :=
    fun a ha r hr he => absurd he (H2 a ha r hr)
  obtain ⟨hA, hK⟩ := pullLoop_main eaddr dialOk mkEp p.public_addr (eaddr message_sender) H1
    addrs p.participants hKR
  rw [Participant.pull_participants_list]
  apply pullLoop_blocked
  intro a ha
  rintro ⟨h1, h2, h3⟩
  rw [is_known_participant_false_iff] at h3
  by_cases hcond : a ≠ p.public_addr ∧ a ≠ eaddr message_sender ∧ ¬ knownP eaddr p.participants a
  · exact h3 ((hK a).2 (Or.inr ⟨Hok a, (hA a).2 ⟨ha, hcond.1, hcond.2.1, hcond.2.2⟩⟩))
  · by_cases hs : a = p.public_addr
    · exact h1 hs
    by_cases hn : a = eaddr message_sender
    · exact h2 hn
    have hk : knownP eaddr p.participants a := by
      by_cases hk' : knownP eaddr p.participants a
      · exact hk'
      · exact absurd ⟨hs, hn, hk'⟩ hcond
    exact h3 ((hK a).2 (Or.inl hk))

/-- C7 witness: the idempotence theorem applied to a concrete node
(public address 100, empty table) and the roster [7] from a sender whose
remote address is 50 — the second delivery attempts no dial. -/
theorem pull_participants_list_idempotent_witness :
    (Participant.pull_participants_list (id : Nat → Nat) (fun _ => true) id
        { public_addr := 100,
          participants :=
            (Participant.pull_participants_list (id : Nat → Nat) (fun _ => true) id
              { public_addr := 100, participants := ParticipantsStorage.new 100 }
              50 [7]).1 }
        50 [7]).2 = [] :=
  pull_participants_list_idempotent id (fun _ => true) id
    { public_addr := 100, participants := ParticipantsStorage.new 100 }
    50 [7] (fun _ => rfl)
    (by intro a _ r hr; simp [ParticipantsStorage.new] at hr)
    (fun _ => rfl)

theorem pullLoop_records {E A : Type} [DecidableEq E] [DecidableEq A]
    (eaddr : E → A) (dialOk : A → Bool) (mkEp : A → E) (selfAddr senderAddr : A) :
    ∀ (addrs : List A) (st : ParticipantsStorage E A),
      (∀ r ∈ (pullLoop eaddr dialOk mkEp selfAddr senderAddr addrs st).1.map,
          r ∈ st.map ∨
            ∃ a ∈ addrs, r = (mkEp a, ParticipantInfo.KnownParticipant) ∧ a ≠ selfAddr)
      ∧ (∀ a ∈ (pullLoop eaddr dialOk mkEp selfAddr senderAddr addrs st).2,
          a ∈ addrs ∧ a ≠ selfAddr) := by
  intro addrs
  induction addrs with
  | nil =>
    intro st
    constructor
    · intro r hr
      exact Or.inl hr
    · intro a ha
      simp [pullLoop] at ha
  | cons a rest ih =>
    intro st
    by_cases hc : a ≠ selfAddr ∧ a ≠ senderAddr ∧ st.is_known_participant eaddr a = false
    · by_cases hd : dialOk a = true
      · constructor
        · intro r hr
          simp only [pullLoop, if_pos hc, if_pos hd] at hr
          rcases (ih (st.add_known_participant (mkEp a))).1 r hr with hin | ⟨b, hb, hrb, hbs⟩
          · rcases (mem_insertRec st (mkEp a) ParticipantInfo.KnownParticipant r).1 hin with
              hEq | ⟨hm, _⟩
            · exact Or.inr ⟨a, List.mem_cons_self a rest, hEq, hc.1⟩
            · exact Or.inl hm
          · exact Or.inr ⟨b, List.mem_cons_of_mem a hb, hrb, hbs⟩
        · intro x hx
          simp only [pullLoop, if_pos hc, if_pos hd] at hx
          rcases List.mem_cons.1 hx with rfl | hx
          · exact ⟨List.mem_cons_self x rest, hc.1⟩
          · obtain ⟨hxr, hxs⟩ := (ih (st.add_known_participant (mkEp a))).2 x hx
            exact ⟨List.mem_cons_of_mem a hxr, hxs⟩
      · constructor
        · intro r hr
          simp only [pullLoop, if_pos hc, if_neg hd] at hr
          rcases (ih st).1 r hr with hin | ⟨b, hb, hrb, hbs⟩
          · exact Or.inl hin
          · exact Or.inr ⟨b, List.mem_cons_of_mem a hb, hrb, hbs⟩
        · intro x hx
          simp only [pullLoop, if_pos hc, if_neg hd] at hx
          rcases List.mem_cons.1 hx with rfl | hx
          · exact ⟨List.mem_cons_self x rest, hc.1⟩
          · obtain ⟨hxr, hxs⟩ := (ih st).2 x hx
            exact ⟨List.mem_cons_of_mem a hxr, hxs⟩
    · constructor
      · intro r hr
        simp only [pullLoop, if_neg hc] at hr
        rcases (ih st).1 r hr with hin | ⟨b, hb, hrb, hbs⟩
        · exact Or.inl hin
        · exact Or.inr ⟨b, List.mem_cons_of_mem a hb, hrb, hbs⟩
      · intro x hx
        simp only [pullLoop, if_neg hc] at hx
        obtain ⟨hxr, hxs⟩ := (ih st).2 x hx
        exact ⟨List.mem_cons_of_mem a hxr, hxs⟩

/-- C2 (amended): self-exclusion holds for every handler except an
announce carrying the node's own address.  In every state reachable by
event-handler steps in which no received `PublicAddress` message carries
`self.public_addr`, the bootstrap target (if any) is not the node
itself, and `Connected` events stem from previously issued dials with
fresh endpoints, no record of the table resolves to
`self.public_addr` — in particular roster reconciliation never dials the
node's own address.  (A `PublicAddress(self.public_addr)` message,
however, does insert such a record: see the counterexample.) -/
theorem reach_self_exclusion {E A : Type} [DecidableEq E] [DecidableEq A]
    (eaddr : E → A) (dialOk : A → Bool) (mkEp : A → E)
    (H1 : ∀ a, eaddr (mkEp a) = a)
    (w : World E A) (hw : Reach eaddr dialOk mkEp w) :
    ∀ r ∈ w.node.participants.map, infoAddr eaddr r ≠ w.node.public_addr := by
  suffices h : (∀ r ∈ w.node.participants.map, infoAddr eaddr r ≠ w.node.public_addr)
      ∧ (∀ a ∈ w.pending, a ≠ w.node.public_addr) from h.1
  induction hw with
  | init selfAddr =>
    constructor
    · intro r hr
      simp [ParticipantsStorage.new] at hr
    · intro a ha
      simp at ha
  | initBoot selfAddr baddr hb =>
    constructor
    · intro r hr
      rcases (mem_insertRec _ (mkEp baddr) ParticipantInfo.KnownParticipant r).1 hr with
        hEq | ⟨hm, _⟩
      · rw [hEq]
        simp only [infoAddr, H1]
        exact hb
      · simp [ParticipantsStorage.new] at hm
    · intro a ha
      simp at ha
      subst ha
      exact hb
  | step w' ev p' out hw' hconn hann hfresh hrun ih =>
    obtain ⟨ihm, ihp⟩ := ih
    cases ev with
    | Accepted e =>
      have hred : runEvent eaddr dialOk mkEp w'.node (NetEvent.Accepted e) =
          StepResult.next w'.node [] := rfl
      rw [hred] at hrun
      injection hrun with h1 h2
      subst h1
      refine ⟨ihm, ?_⟩
      intro x hx
      simp only [eventNewDials, List.append_nil] at hx
      exact ihp x hx
    | Connected e est =>
      cases est with
      | false =>
        have hred : runEvent eaddr dialOk mkEp w'.node (NetEvent.Connected e false) =
            StepResult.exit 1 := rfl
        rw [hred] at hrun
        exact StepResult.noConfusion hrun
      | true =>
        have hred : runEvent eaddr dialOk mkEp w'.node (NetEvent.Connected e true) =
            StepResult.next
              { w'.node with
                participants := w'.node.participants.add_known_participant e }
              [Output.send e (Message.PublicAddress w'.node.public_addr),
               Output.send e Message.PushParticipantsList] := rfl
        rw [hred] at hrun
        injection hrun with h1 h2
        subst h1
        obtain ⟨a, hap, hea⟩ := hconn e true rfl
        refine ⟨?_, ?_⟩
        · intro r hr
          rcases (mem_insertRec _ e ParticipantInfo.KnownParticipant r).1 hr with hEq | ⟨hm, _⟩
          · rw [hEq]
            simp only [infoAddr]
            rw [hea, H1]
            exact ihp a hap
          · exact ihm r hm
        · intro x hx
          simp only [eventNewDials, List.append_nil] at hx
          exact ihp x hx
    | Message sender m =>
      cases m with
      | PublicAddress pa =>
        have hred : runEvent eaddr dialOk mkEp w'.node
            (NetEvent.Message sender (Message.PublicAddress pa)) =
            StepResult.next
              { w'.node with
                participants := w'.node.participants.add_unknown_participant sender pa }
              [] := rfl
        rw [hred] at hrun
        injection hrun with h1 h2
        subst h1
        have hpa : pa ≠ w'.node.public_addr := by
          intro hcon
          exact hann sender (by rw [hcon])
        refine ⟨?_, ?_⟩
        · intro r hr
          rcases (mem_insertRec _ sender (ParticipantInfo.UnknownParticipant pa) r).1 hr with
            hEq | ⟨hm, _⟩
          · rw [hEq]
            simpa [infoAddr] using hpa
          · exact ihm r hm
        · intro x hx
          simp only [eventNewDials, List.append_nil] at hx
          exact ihp x hx
      | PushParticipantsList =>
        have hred : runEvent eaddr dialOk mkEp w'.node
            (NetEvent.Message sender Message.PushParticipantsList) =
            StepResult.next w'.node
              [Output.send sender
                (Message.PullParticipantsList
                  (w'.node.participants.get_participants_list eaddr))] := rfl
        rw [hred] at hrun
        injection hrun with h1 h2
        subst h1
        refine ⟨ihm, ?_⟩
        intro x hx
        simp only [eventNewDials, List.append_nil] at hx
        exact ihp x hx
      | PullParticipantsList addrs =>
        have hred : runEvent eaddr dialOk mkEp w'.node
            (NetEvent.Message sender (Message.PullParticipantsList addrs)) =
            StepResult.next
              { w'.node with
                participants :=
                  (Participant.pull_participants_list eaddr dialOk mkEp w'.node
                    sender addrs).1 }
              ((Participant.pull_participants_list eaddr dialOk mkEp w'.node
                  sender addrs).2.map Output.dialAttempt) := rfl
        rw [hred] at hrun
        injection hrun with h1 h2
        subst h1
        obtain ⟨hrec, hatt⟩ := pullLoop_records eaddr dialOk mkEp w'.node.public_addr
          (eaddr sender) addrs w'.node.participants
        refine ⟨?_, ?_⟩
        · intro r hr
          rcases hrec r hr with hin | ⟨b, hb, hrb, hbs⟩
          · exact ihm r hin
          · rw [hrb]
            simpa [infoAddr, H1] using hbs
        · intro x hx
          rcases List.mem_append.1 hx with hx | hx
          · exact ihp x hx
          · have hx' : x ∈ (Participant.pull_participants_list eaddr dialOk mkEp w'.node
                sender addrs).2 := by
              simp only [eventNewDials] at hx
              exact List.mem_of_mem_filter hx
            exact (hatt x hx').2
      | Text t =>
        cases hg : w'.node.participants.get_pub_addr eaddr sender with
        | none =>
          have hred : runEvent eaddr dialOk mkEp w'.node
              (NetEvent.Message sender (Message.Text t)) = StepResult.panic := by
            simp only [runEvent, Participant.network_messages, hg]
          rw [hred] at hrun
          exact StepResult.noConfusion hrun
        | some pa =>
          have hred : runEvent eaddr dialOk mkEp w'.node
              (NetEvent.Message sender (Message.Text t)) =
              StepResult.next w'.node [Output.logReceived t pa] := by
            simp only [runEvent, Participant.network_messages, hg]
          rw [hred] at hrun
          injection hrun with h1 h2
          subst h1
          refine ⟨ihm, ?_⟩
          intro x hx
          simp only [eventNewDials, List.append_nil] at hx
          exact ihp x hx
    | Disconnected e =>
      have hred : runEvent eaddr dialOk mkEp w'.node (NetEvent.Disconnected e) =
          StepResult.next
            { w'.node with participants := w'.node.participants.drop e } [] := rfl
      rw [hred] at hrun
      injection hrun with h1 h2
      subst h1
      refine ⟨?_, ?_⟩
      · intro r hr
        exact ihm r (List.mem_of_mem_filter hr)
      · intro x hx
        simp only [eventNewDials, List.append_nil] at hx
        exact ihp x hx

/-- C2 witness: the amended self-exclusion theorem applied at a concrete
reachable world (a fresh node with public address 9 after a bootstrap
dial to 5). -/
theorem reach_self_exclusion_witness :
    infoAddr (id : Nat → Nat) (5, ParticipantInfo.KnownParticipant) ≠ 9 :=
  reach_self_exclusion (id : Nat → Nat) (fun _ => true) id (fun _ => rfl) _
    (Reach.initBoot 9 5 (by decide)) (5, ParticipantInfo.KnownParticipant) (by decide)

theorem natLE_length (k n : Nat) : (natLE k n).length = k := by
  induction k generalizing n with
  | zero => rfl
  | succ k ih => simp [natLE, ih]

theorem leNat_natLE (k n : Nat) (h : n < 256 ^ k) : leNat (natLE k n) = n := by
  induction k generalizing n with
  | zero =>
    simp only [Nat.pow_zero, Nat.lt_one_iff] at h
    subst h
    rfl
  | succ k ih =>
    have hdiv : n / 256 < 256 ^ k := by
      rw [Nat.div_lt_iff_lt_mul (by norm_num : 0 < 256)]
      calc n < 256 ^ (k + 1) := h
        _ = 256 ^ k * 256 := by rw [Nat.pow_succ]
    simp only [natLE, leNat]
    rw [ih _ hdiv]
    omega

theorem takeExact_append (xs r : List Byte) :
    takeExact xs.length (xs ++ r) = some (xs, r) := by
  simp [takeExact, List.take_left, List.drop_left]

theorem takeExact_of_len (k : Nat) (xs r : List Byte) (h : xs.length = k) :
    takeExact k (xs ++ r) = some (xs, r) := by
  subst h
  exact takeExact_append xs r

theorem decodePort_encode (ip : IpAddr) (p : Fin 65536) (r : List Byte) :
    decodePort ip (natLE 2 p.val ++ r) = some (⟨ip, p⟩, r) := by
  have h2 : takeExact 2 (natLE 2 p.val ++ r) = some (natLE 2 p.val, r) :=
    takeExact_of_len 2 _ _ (natLE_length 2 _)
  have hp : leNat (natLE 2 p.val) = p.val :=
    leNat_natLE 2 p.val (by have := p.isLt; omega)
  simp [decodePort, h2, hp, Nat.mod_eq_of_lt p.isLt, Fin.ext_iff]

theorem decodeSockAddr_encode (a : SockAddr) (h : wfAddr a) (r : List Byte) :
    decodeSockAddr (encodeSockAddr a ++ r) = some (a, r) := by
  obtain ⟨ip, p⟩ := a
  cases ip with
  | v4 o0 o1 o2 o3 =>
    have h4 : takeExact 4 (natLE 4 0 ++ ([o0, o1, o2, o3] ++ (natLE 2 p.val ++ r))) =
        some (natLE 4 0, [o0, o1, o2, o3] ++ (natLE 2 p.val ++ r)) :=
      takeExact_of_len 4 _ _ (natLE_length 4 0)
    have h4b : takeExact 4 ([o0, o1, o2, o3] ++ (natLE 2 p.val ++ r)) =
        some ([o0, o1, o2, o3], natLE 2 p.val ++ r) :=
      takeExact_of_len 4 _ _ rfl
    have htag : leNat (natLE 4 0) = 0 := leNat_natLE 4 0 (by norm_num)
    simp only [List.cons_append, List.nil_append] at h4 h4b
    simp only [encodeSockAddr, encodeIp, List.append_assoc, List.cons_append,
      List.nil_append]
    simp [decodeSockAddr, h4, htag, h4b, decodePort_encode]
  | v6 bs =>
    have hlen : bs.length = 16 := h
    have h4 : takeExact 4 (natLE 4 1 ++ (bs ++ (natLE 2 p.val ++ r))) =
        some (natLE 4 1, bs ++ (natLE 2 p.val ++ r)) :=
      takeExact_of_len 4 _ _ (natLE_length 4 1)
    have h16 : takeExact 16 (bs ++ (natLE 2 p.val ++ r)) = some (bs, natLE 2 p.val ++ r) :=
      takeExact_of_len 16 _ _ hlen
    have htag : leNat (natLE 4 1) = 1 := leNat_natLE 4 1 (by norm_num)
    simp [encodeSockAddr, encodeIp, List.append_assoc, decodeSockAddr, h4, htag, h16,
      decodePort_encode]

theorem decodeAddrs_encode (as : List SockAddr) (h : ∀ a ∈ as, wfAddr a) (r : List Byte) :
    decodeAddrs as.length ((as.map encodeSockAddr).flatten ++ r) = some (as, r) := by
  induction as generalizing r with
  | nil => simp [decodeAddrs]
  | cons a as ih =>
    simp only [List.map_cons, List.flatten_cons, List.length_cons, List.append_assoc]
    simp only [decodeAddrs]
    rw [decodeSockAddr_encode a (h a (List.mem_cons_self a as))
      ((as.map encodeSockAddr).flatten ++ r)]
    simp [ih (fun b hb => h b (List.mem_cons_of_mem a hb))]

/-- C9: codec round trip.  For every well-formed value of the
four-variant `Message` type (v6 address payloads have their 16 bytes and
sequence lengths fit the 64-bit length prefix, as every Rust value
satisfies), decoding the frame produced by encoding the message yields
the identical message.  The codec itself is modelled from the spec,
since the serializer is an external crate. -/
theorem decode_encode_message (m : Message SockAddr (List Byte)) (h : wfMessage m) :
    decodeMessage (encodeMessage m) = some m := by
  cases m with
  | PublicAddress a =>
    have h4 : takeExact 4 (natLE 4 0 ++ encodeSockAddr a) =
        some (natLE 4 0, encodeSockAddr a) :=
      takeExact_of_len 4 _ _ (natLE_length 4 0)
    have htag : leNat (natLE 4 0) = 0 := leNat_natLE 4 0 (by norm_num)
    have hdec : decodeSockAddr (encodeSockAddr a ++ []) = some (a, []) :=
      decodeSockAddr_encode a h []
    rw [List.append_nil] at hdec
    simp [encodeMessage, decodeMessage, h4, htag, hdec]
  | PushParticipantsList =>
    have h4 : takeExact 4 (natLE 4 1 ++ []) = some (natLE 4 1, []) :=
      takeExact_of_len 4 _ _ (natLE_length 4 1)
    rw [List.append_nil] at h4
    have htag : leNat (natLE 4 1) = 1 := leNat_natLE 4 1 (by norm_num)
    simp [encodeMessage, decodeMessage, h4, htag]
  | PullParticipantsList as =>
    obtain ⟨hlen, hwf⟩ := h
    have h4 : takeExact 4
        (natLE 4 2 ++ (natLE 8 as.length ++ (as.map encodeSockAddr).flatten)) =
        some (natLE 4 2, natLE 8 as.length ++ (as.map encodeSockAddr).flatten) :=
      takeExact_of_len 4 _ _ (natLE_length 4 2)
    have htag : leNat (natLE 4 2) = 2 := leNat_natLE 4 2 (by norm_num)
    have h8 : takeExact 8 (natLE 8 as.length ++ (as.map encodeSockAddr).flatten) =
        some (natLE 8 as.length, (as.map encodeSockAddr).flatten) :=
      takeExact_of_len 8 _ _ (natLE_length 8 _)
    have hcnt : leNat (natLE 8 as.length) = as.length :=
      leNat_natLE 8 _ (by
        have h64 : (256 : Nat) ^ 8 = 2 ^ 64 := by norm_num
        rw [h64]
        exact hlen)
    have hdec : decodeAddrs as.length ((as.map encodeSockAddr).flatten ++ []) =
        some (as, []) := decodeAddrs_encode as hwf []
    rw [List.append_nil] at hdec
    simp [encodeMessage, decodeMessage, List.append_assoc, h4, htag, h8, hcnt, hdec]
  | Text t =>
    have h4 : takeExact 4 (natLE 4 3 ++ (natLE 8 t.length ++ t)) =
        some (natLE 4 3, natLE 8 t.length ++ t) :=
      takeExact_of_len 4 _ _ (natLE_length 4 3)
    have htag : leNat (natLE 4 3) = 3 := leNat_natLE 4 3 (by norm_num)
    have h8 : takeExact 8 (natLE 8 t.length ++ t) = some (natLE 8 t.length, t) :=
      takeExact_of_len 8 _ _ (natLE_length 8 _)
    have hcnt : leNat (natLE 8 t.length) = t.length :=
      leNat_natLE 8 _ (by
        have h64 : (256 : Nat) ^ 8 = 2 ^ 64 := by norm_num
        rw [h64]
        exact h)
    have htt : takeExact t.length t = some (t, []) := by
      have h' := takeExact_of_len t.length t [] rfl
      rwa [List.append_nil] at h'
    simp [encodeMessage, decodeMessage, List.append_assoc, h4, htag, h8, hcnt, htt]

/-- C9 witness: the round trip applied to a concrete roster message
carrying address 127.0.0.1:9001. -/
theorem decode_encode_message_witness :
    wfMessage (Message.PullParticipantsList
      [SockAddr.mk (IpAddr.v4 127 0 0 1) ⟨9001, by norm_num⟩])
    ∧ decodeMessage (encodeMessage (Message.PullParticipantsList
        [SockAddr.mk (IpAddr.v4 127 0 0 1) ⟨9001, by norm_num⟩])) =
      some (Message.PullParticipantsList
        [SockAddr.mk (IpAddr.v4 127 0 0 1) ⟨9001, by norm_num⟩]) := by
  have hwf : wfMessage (Message.PullParticipantsList
      [SockAddr.mk (IpAddr.v4 127 0 0 1) ⟨9001, by norm_num⟩]) := by
    constructor
    · norm_num
    · intro a ha
      simp only [List.mem_singleton] at ha
      subst ha
      simp [wfAddr]
  exact ⟨hwf, decode_encode_message _ hwf⟩
